import Mathlib

/-!
Verification development for the job-scraping pipeline (scrape_jobs.py).

The Python source is shallowly embedded: pure text-processing functions are
translated to Lean functions over `String`/`List Char`; the network fetcher is
modelled with an oracle giving the outcome of each HTTP attempt; feed entries
and listing-page stubs (produced by the external feedparser/BeautifulSoup
libraries) are modelled as explicit records handed to the adapter code.
-/

/-! ## Text normalizer (clean_text, canonicalize)

`clean_text` embeds `re.sub(r"\s+", " ", s or "").strip()`.
-/

/-- The characters matched by the regex class backslash-s on the ASCII inputs
of this program (space, tab, newline, carriage return, vertical tab, form feed). -/
def pySpace (c : Char) : Bool :=
  c == ' ' || c == '\t' || c == '\n' || c == '\r' || c == '\x0b' || c == '\x0c'

/-- Replace every run of whitespace by a single space (the substitution in
`clean_text`); `prevSpace` records whether the previous character was part of a
whitespace run. -/
def collapseWs : Bool → List Char → List Char
  | _, [] => []
  | prevSpace, c :: cs =>
    if pySpace c then
      if prevSpace then collapseWs true cs
      else ' ' :: collapseWs true cs
    else c :: collapseWs false cs

/-- `str.strip()` on both ends. -/
def stripWs (l : List Char) : List Char :=
  ((l.dropWhile pySpace).reverse.dropWhile pySpace).reverse

/-- `clean_text(s)`: collapse whitespace runs to single spaces and trim the ends. -/
def clean_text (s : String) : String :=
  ⟨stripWs (collapseWs false s.data)⟩

/-- The two dash replacements in `canonicalize` (em dash and en dash to hyphen). -/
def dashToHyphen (c : Char) : Char :=
  if c == '—' then '-' else if c == '–' then '-' else c

/-- `canonicalize(s)`: clean, lower-case, replace em/en dashes by hyphens,
then collapse and strip once more (as the source does). -/
def canonicalize (s : String) : String :=
  clean_text ⟨((clean_text s).data.map Char.toLower).map dashToHyphen⟩

/-- Python slicing `s[:n]` on a string. -/
def pySlice (s : String) (n : Nat) : String :=
  ⟨s.data.take n⟩

/-- Does `hay` start with `needle`? (list version, used for substring search). -/
def startsWithL : List Char → List Char → Bool
  | [], _ => true
  | _ :: _, [] => false
  | a :: as, b :: bs => a == b && startsWithL as bs

/-- Python `needle in hay` substring containment on character lists. -/
def containsL (needle : List Char) : List Char → Bool
  | [] => startsWithL needle []
  | c :: rest => startsWithL needle (c :: rest) || containsL needle rest

/-- Case-insensitive prefix test (used to embed `re.I` literal matching). -/
def ciStartsWith (needle hay : List Char) : Bool :=
  startsWithL (needle.map Char.toLower) (hay.map Char.toLower)

/-! ## The Posting record (dataclass JobRow) -/

/-- The `JobRow` dataclass, field for field. -/
structure JobRow where
  title : String
  organization : String
  state : String := ""
  sector : String := ""
  remote_type : String := ""
  salary_min : String := ""
  salary_max : String := ""
  date_posted : String := ""
  description : String := ""
  apply_url : String := ""
deriving DecidableEq, Repr

/-! ## Aggregator / deduplication (dedupe_rows) -/

/-- The completeness score computed inside `dedupe_rows`. -/
def score (x : JobRow) : Nat :=
  (if x.apply_url ≠ "" then 3 else 0)
  + (if x.date_posted ≠ "" then 2 else 0)
  + (if x.state ≠ "" then 1 else 0)
  + (if x.remote_type ≠ "" then 1 else 0)
  + (if x.salary_min ≠ "" ∨ x.salary_max ≠ "" then 1 else 0)
  + min x.description.length 2000 / 500

/-- The two shapes of dedup key built in `dedupe_rows`:
`("job", title_key, org_key)` or `("url", canonicalize(apply_url))`. -/
inductive DedupKey where
  | job (titleKey orgKey : String)
  | url (u : String)
deriving DecidableEq, Repr

/-- The test `not org_key or org_key in {"unknown", "n/a", "-"}`. -/
def orgKeyUnresolved (org_key : String) : Bool :=
  org_key == "" || org_key == "unknown" || org_key == "n/a" || org_key == "-"

/-- The key built for one row inside the `dedupe_rows` loop. -/
def dedupKey (r : JobRow) : DedupKey :=
  if orgKeyUnresolved (canonicalize r.organization) then
    DedupKey.url (canonicalize r.apply_url)
  else
    DedupKey.job (canonicalize r.title) (canonicalize r.organization)

/-- Lookup in the insertion-ordered dictionary `uniq` (`uniq.get(key)`). -/
def lookupAssoc : List (DedupKey × JobRow) → DedupKey → Option JobRow
  | [], _ => none
  | (k, r) :: rest, key => if k = key then some r else lookupAssoc rest key

/-- Assignment `uniq[key] = r` when `key` is already present keeps the entry at
its position (Python dict semantics); when absent it appends. -/
def updateAssoc : List (DedupKey × JobRow) → DedupKey → JobRow → List (DedupKey × JobRow)
  | [], key, r => [(key, r)]
  | (k, r0) :: rest, key, r =>
    if k = key then (k, r) :: rest else (k, r0) :: updateAssoc rest key r

/-- One iteration of the `for r in rows` loop of `dedupe_rows`. -/
def dedupeStep (u : List (DedupKey × JobRow)) (r : JobRow) : List (DedupKey × JobRow) :=
  match lookupAssoc u (dedupKey r) with
  | none => u ++ [(dedupKey r, r)]
  | some existing => if score r > score existing then updateAssoc u (dedupKey r) r else u

/-- `dedupe_rows`: fold the rows through the dictionary and return
`list(uniq.values())`. -/
def dedupe_rows (rows : List JobRow) : List JobRow :=
  (rows.foldl dedupeStep []).map Prod.snd

/-- The comparison the loop makes between a new candidate and the stored one:
replace only on a strictly greater score. -/
def pickBetter (b x : JobRow) : JobRow := if score x > score b then x else b

/-- Folding `pickBetter` over a group of candidates that share one key. -/
def winner (b : JobRow) (g : List JobRow) : JobRow := g.foldl pickBetter b

/-- The Boolean filter selecting the rows mapped to a given key. -/
def keyFilter (k : DedupKey) (x : JobRow) : Bool := decide (dedupKey x = k)

/-- `r` is the first element of `g` attaining the maximal score: everything
before it scores strictly less, everything after it scores no more. -/
def isFirstArgmax (r : JobRow) (g : List JobRow) : Prop :=
  ∃ l₁ l₂, g = l₁ ++ r :: l₂
    ∧ (∀ x ∈ l₁, score x < score r)
    ∧ (∀ x ∈ l₂, score x ≤ score r)

/-- Rows whose canonical organization is empty or a sentinel and whose
apply_url is empty (for claim C10). -/
def sentinelNoUrl (r : JobRow) : Bool :=
  orgKeyUnresolved (canonicalize r.organization) && (r.apply_url == "")

/-! ## Field inference: state extraction (extract_state) -/

/-- The module-level `STATE_ABBR` set (50 states plus DC). -/
def STATE_ABBRL : List String :=
  ["AL", "AK", "AZ", "AR", "CA", "CO", "CT", "DE", "FL", "GA", "HI", "ID", "IL", "IN", "IA", "KS",
   "KY", "LA", "ME", "MD", "MA", "MI", "MN", "MS", "MO", "MT", "NE", "NV", "NH", "NJ", "NM", "NY",
   "NC", "ND", "OH", "OK", "OR", "PA", "RI", "SC", "SD", "TN", "TX", "UT", "VT", "VA", "WA", "WV",
   "WI", "WY", "DC"]

/-- ASCII uppercase letter, the regex class of capital A to capital Z. -/
def isAZ (c : Char) : Bool := 65 ≤ c.toNat && c.toNat ≤ 90

/-- A regex word character on the ASCII inputs of this program. -/
def isWordCh (c : Char) : Bool := c.isAlphanum || c == '_'

/-- Word boundary to the left of a match: start of text or a non-word character. -/
def boundaryL : Option Char → Bool
  | none => true
  | some c => !(isWordCh c)

/-- Word boundary to the right of a match: end of text or a non-word character. -/
def boundaryR : List Char → Bool
  | [] => true
  | c :: _ => !(isWordCh c)

/-- The leftmost match of the pattern: word boundary, two uppercase letters,
word boundary (what `re.search` returns in `extract_state`); `prev` is the
character before the current position. -/
def scanTokenAux : Option Char → List Char → Option String
  | _, [] => none
  | _, [_] => none
  | prev, a :: b :: rest =>
    if isAZ a && isAZ b && boundaryL prev && boundaryR rest then some ⟨[a, b]⟩
    else scanTokenAux (some a) (b :: rest)

/-- All matches of the bare-two-uppercase-letter pattern, in order of position
(used to state what `extract_state` does and does not find). -/
def allTokensAux : Option Char → List Char → List String
  | _, [] => []
  | _, [_] => []
  | prev, a :: b :: rest =>
    if isAZ a && isAZ b && boundaryL prev && boundaryR rest then
      (⟨[a, b]⟩ : String) :: allTokensAux (some a) (b :: rest)
    else allTokensAux (some a) (b :: rest)

/-- Every bare two-letter uppercase token of a text, first one first. -/
def allTokens (text : String) : List String := allTokensAux none text.data

/-- `extract_state(text)`: take the first bare two-letter uppercase token and
return it when it is in `STATE_ABBR`, else return the empty string. -/
def extract_state (text : String) : String :=
  match scanTokenAux none text.data with
  | some tok => if tok ∈ STATE_ABBRL then tok else ""
  | none => ""

/-! ## Field inference: remote-type classification (infer_remote_type) -/

/-- `infer_remote_type(text)`: case-insensitive substring rules in priority order. -/
def infer_remote_type (text : String) : String :=
  let t : List Char := text.data.map Char.toLower
  if containsL ("fully remote").data t || containsL ("100% remote").data t then "Remote"
  else if containsL ("remote").data t && !(containsL ("hybrid").data t) then "Remote"
  else if containsL ("hybrid").data t then "Hybrid"
  else if containsL ("on-site").data t || containsL ("onsite").data t
       || containsL ("in person").data t then "Onsite"
  else ""

/-! ## Field inference: title/organization splitting (split_title_org) -/

/-- Split at the first occurrence of `sep`, like `t.split(sep, 1)` guarded by
`sep in t`: `none` when `sep` does not occur. -/
def splitFirstAux (sep : List Char) : List Char → Option (List Char × List Char)
  | [] => none
  | c :: rest =>
    if startsWithL sep (c :: rest) then some ([], (c :: rest).drop sep.length)
    else
      match splitFirstAux sep rest with
      | some (pre, post) => some (c :: pre, post)
      | none => none

/-- The `for sep in [...]` loop of `split_title_org`: try each separator, accept
the first split whose sides are non-empty with a right side of at most 80
characters, else fall through. -/
def trySeps (t : String) : List String → String × String
  | [] => (t, "")
  | sep :: seps =>
    match splitFirstAux sep.data t.data with
    | some (pre, post) =>
      let left := clean_text ⟨pre⟩
      let right := clean_text ⟨post⟩
      if left ≠ "" ∧ right ≠ "" ∧ right.length ≤ 80 then (left, right)
      else trySeps t seps
    | none => trySeps t seps

/-- `split_title_org(raw_title)`. -/
def split_title_org (raw_title : String) : String × String :=
  trySeps (clean_text raw_title) [" — ", " - ", " – "]

/-! ## Field inference: prefixed-title parsing (parse_archivesgig_title) -/

/-- After a comma, the rest of the pattern of the City-comma-State regex:
optional whitespace, exactly two uppercase letters, optional whitespace, a
colon; on success returns the two-letter group and the remainder after the
colon with its leading whitespace consumed (the trailing group). -/
def afterCommaMatch (l : List Char) : Option (String × List Char) :=
  match l.dropWhile pySpace with
  | a :: b :: rest =>
    if isAZ a && isAZ b then
      match rest.dropWhile pySpace with
      | ':' :: rest2 => some (⟨[a, b]⟩, rest2.dropWhile pySpace)
      | _ => none
    else none
  | _ => none

/-- The greedy leading dot-star of the anchored regex makes the engine take the
rightmost comma whose suffix completes the pattern; scan from the right. -/
def lastCommaMatch : List Char → Option (String × List Char)
  | [] => none
  | c :: rest =>
    match lastCommaMatch rest with
    | some r => some r
    | none => if c == ',' then afterCommaMatch rest else none

/-- After a leading tag word, the rest of the tag-stripping pattern:
optional whitespace, a colon, optional whitespace; returns the remainder. -/
def tagCont (rest : List Char) : Option (List Char) :=
  match rest.dropWhile pySpace with
  | ':' :: r2 => some (r2.dropWhile pySpace)
  | _ => none

/-- The anchored case-insensitive alternation of the remote/hybrid/onsite tag
substitution: try each alternative at the start; on a full match drop the
matched span, otherwise leave the text unchanged. -/
def stripTagAlts : List String → List Char → List Char
  | [], t => t
  | tag :: tags, t =>
    if ciStartsWith tag.data t then
      match tagCont (t.drop tag.length) with
      | some rest => rest
      | none => stripTagAlts tags t
    else stripTagAlts tags t

/-- Split at the last occurrence of `sep`, like `t.rsplit(sep, 1)` guarded by
`sep in t`: `none` when `sep` does not occur. -/
def rsplitLastAux (sep : List Char) : List Char → Option (List Char × List Char)
  | [] => none
  | c :: rest =>
    match rsplitLastAux sep rest with
    | some (pre, post) => some (c :: pre, post)
    | none =>
      if startsWithL sep (c :: rest) then some ([], (c :: rest).drop sep.length)
      else none

/-- `parse_archivesgig_title(raw_title)`: returns (title, org, state_guess). -/
def parse_archivesgig_title (raw_title : String) : String × String × String :=
  let t := clean_text raw_title
  let p1 : String × String :=
    match lastCommaMatch t.data with
    | some (st, rest) => if st ∈ STATE_ABBRL then (st, ⟨rest⟩) else ("", t)
    | none => ("", t)
  let state_guess := p1.1
  let t2 : List Char :=
    stripTagAlts ["remote", "hybrid", "onsite", "on-site", "in person"] p1.2.data
  let p2 : List Char × List Char :=
    match rsplitLastAux [',', ' '] t2 with
    | some (pre, post) => (pre, post)
    | none => (t2, [])
  (clean_text ⟨p2.1⟩, clean_text ⟨p2.2⟩, state_guess)

/-! ## Dates (iso_date_from_entry, extract_date_posted) -/

/-- Gregorian leap year. -/
def isLeap (y : Nat) : Bool := y % 4 == 0 && (y % 100 != 0 || y % 400 == 0)

/-- Days in a month. -/
def daysInMonth (y m : Nat) : Nat :=
  if m == 2 then (if isLeap y then 29 else 28)
  else if m == 4 || m == 6 || m == 9 || m == 11 then 30
  else 31

/-- The dates accepted by the datetime constructor (year 1 to 9999), which is
also exactly the set on which `strptime` plus `.date()` succeeds once the
textual shape has matched. -/
def validDate (y m d : Nat) : Bool :=
  1 ≤ y && y ≤ 9999 && 1 ≤ m && m ≤ 12 && 1 ≤ d && d ≤ daysInMonth y m

/-- Left-pad a number to two digits. -/
def pad2 (n : Nat) : String := if n < 10 then "0" ++ toString n else toString n

/-- Left-pad a number to four digits. -/
def pad4 (n : Nat) : String :=
  if n < 10 then "000" ++ toString n
  else if n < 100 then "00" ++ toString n
  else if n < 1000 then "0" ++ toString n
  else toString n

/-- `date(y, m, d).isoformat()`. -/
def isoFormat (y m d : Nat) : String := pad4 y ++ "-" ++ pad2 m ++ "-" ++ pad2 d

/-- A feedparser struct_time, reduced to the (tm_year, tm_mon, tm_mday) triple
that `iso_date_from_entry` reads. -/
abbrev StructTime := Nat × Nat × Nat

/-- The body of `iso_date_from_entry` once a struct_time is at hand: build the
date and format it, with the surrounding try/except turning an invalid triple
into the empty string. -/
def isoOfStructTime : StructTime → String
  | (y, m, d) => if validDate y m d then isoFormat y m d else ""

/-! ## Feed entries and the RSS adapters -/

/-- A parsed feed entry, reduced to the attributes the adapters read.
`content` is the value of the first element of `entry.content` when that
attribute exists and is non-empty; `summary` and `descr` model the `summary`
and `description` attributes with the getattr default of the empty string. -/
structure FeedEntry where
  title : String := ""
  link : String := ""
  summary : String := ""
  descr : String := ""
  content : Option String := none
  published_parsed : Option StructTime := none
  updated_parsed : Option StructTime := none
deriving DecidableEq, Repr

/-- `iso_date_from_entry(entry)`: published_parsed, else updated_parsed, else empty. -/
def iso_date_from_entry (entry : FeedEntry) : String :=
  match entry.published_parsed with
  | some tm => isoOfStructTime tm
  | none =>
    match entry.updated_parsed with
    | some tm => isoOfStructTime tm
    | none => ""

/-- The body of the per-entry loop of `scrape_archivesgig`: build one JobRow. -/
def archivesgigRow (entry : FeedEntry) : JobRow :=
  let raw_title := entry.title
  let parsed := parse_archivesgig_title raw_title
  let title := parsed.1
  let org_from_title := parsed.2.1
  let state_from_title := parsed.2.2
  let url := entry.link
  let body :=
    match entry.content with
    | some c => clean_text c
    | none => clean_text entry.summary
  let text_for_inference := title ++ " " ++ org_from_title ++ " " ++ body
  let state := if state_from_title ≠ "" then state_from_title
               else extract_state text_for_inference
  { title := if title ≠ "" then pySlice title 255 else pySlice (clean_text raw_title) 255
    organization := if org_from_title ≠ "" then pySlice org_from_title 255 else "Unknown"
    state := state
    sector := "Other"
    remote_type := infer_remote_type text_for_inference
    salary_min := ""
    salary_max := ""
    date_posted := iso_date_from_entry entry
    description := pySlice body 4000 ++ (if url ≠ "" then "\n\nSource: " ++ url else "")
    apply_url := url }

/-- `scrape_archivesgig(max_items)`, with the externally parsed feed entries
passed in (the feed fetch and XML parse happen in the feedparser library). -/
def scrape_archivesgig (entries : List FeedEntry) (max_items : Nat) : List JobRow :=
  (entries.take max_items).map archivesgigRow

/-- The body of the per-entry loop of `scrape_higheredjobs_feed`. -/
def higheredjobsRow (entry : FeedEntry) : JobRow :=
  let raw_title := entry.title
  let link := entry.link
  let body :=
    match entry.content with
    | some c => clean_text c
    | none => clean_text (if entry.summary ≠ "" then entry.summary else entry.descr)
  let sp := split_title_org raw_title
  let title := sp.1
  let org_from_title := sp.2
  let text_for_inference := title ++ " " ++ org_from_title ++ " " ++ body
  { title := if title ≠ "" then pySlice title 255 else pySlice (clean_text raw_title) 255
    organization := if org_from_title ≠ "" then pySlice org_from_title 255 else "Unknown"
    state := extract_state text_for_inference
    sector := "Academic"
    remote_type := infer_remote_type text_for_inference
    salary_min := ""
    salary_max := ""
    date_posted := iso_date_from_entry entry
    description := pySlice body 4000 ++ (if link ≠ "" then "\n\nSource: " ++ link else "")
    apply_url := link }

/-- The entry loop of `scrape_higheredjobs_feed` after a successful feed fetch. -/
def scrape_higheredjobs_entries (entries : List FeedEntry) (max_items : Nat) : List JobRow :=
  (entries.take max_items).map higheredjobsRow

/-! ## Date extraction from detail text (extract_date_posted)

`extract_date_posted` searches for a "Date Created:" label followed by either
a numeric MM/DD/YYYY form or a "Month DD, YYYY" form and hands the captured
text to `datetime.strptime` with no exception handling, so a captured text
denoting an invalid calendar date raises; the embedding returns `Except`, with
`Except.error` marking the raised ValueError.
-/

/-- The label literal, lower-cased for case-insensitive matching. -/
def dcLabel : List Char := "date created:".data

/-- Digit value of a character. -/
def dv (c : Char) : Nat := c.toNat - 48

/-- Greedy one-or-two digits followed by a slash; returns the number and the
remainder after the slash. -/
def digits12Slash : List Char → Option (Nat × List Char)
  | a :: b :: c :: rest =>
    if a.isDigit && b.isDigit && c == '/' then some (dv a * 10 + dv b, rest)
    else if a.isDigit && b == '/' then some (dv a, c :: rest)
    else none
  | [a, b] => if a.isDigit && b == '/' then some (dv a, []) else none
  | _ => none

/-- Greedy one-or-two digits followed by a comma. -/
def digits12Comma : List Char → Option (Nat × List Char)
  | a :: b :: c :: rest =>
    if a.isDigit && b.isDigit && c == ',' then some (dv a * 10 + dv b, rest)
    else if a.isDigit && b == ',' then some (dv a, c :: rest)
    else none
  | [a, b] => if a.isDigit && b == ',' then some (dv a, []) else none
  | _ => none

/-- Exactly four digits (any trailing text is ignored by the pattern). -/
def digits4 : List Char → Option Nat
  | a :: b :: c :: d :: _ =>
    if a.isDigit && b.isDigit && c.isDigit && d.isDigit then
      some (dv a * 1000 + dv b * 100 + dv c * 10 + dv d)
    else none
  | _ => none

/-- The numeric date group at a fixed position: digits, slash, digits, slash,
four digits; returns (month, day, year) as captured. -/
def slashDateAt (l : List Char) : Option (Nat × Nat × Nat) :=
  match digits12Slash l with
  | none => none
  | some (m, r1) =>
    match digits12Slash r1 with
    | none => none
    | some (d, r2) =>
      match digits4 r2 with
      | none => none
      | some y => some (m, d, y)

/-- Leftmost occurrence of the label (case-insensitive) followed by optional
whitespace and the numeric date group. -/
def searchSlashDate : List Char → Option (Nat × Nat × Nat)
  | [] => none
  | c :: rest =>
    if ciStartsWith dcLabel (c :: rest) then
      match slashDateAt (((c :: rest).drop dcLabel.length).dropWhile pySpace) with
      | some t => some t
      | none => searchSlashDate rest
    else searchSlashDate rest

/-- Maximal run of ASCII letters. -/
def takeLetters : List Char → List Char × List Char
  | [] => ([], [])
  | c :: rest =>
    if c.isAlpha then
      match takeLetters rest with
      | (w, r) => (c :: w, r)
    else ([], c :: rest)

/-- One-or-more whitespace characters, greedily consumed. -/
def wsPlus : List Char → Option (List Char)
  | [] => none
  | c :: rest => if pySpace c then some (rest.dropWhile pySpace) else none

/-- The textual date group at a fixed position: letters, whitespace, one or
two digits, comma, whitespace, four digits; returns the letter run, day, year. -/
def nameDateAt (l : List Char) : Option (List Char × Nat × Nat) :=
  match takeLetters l with
  | ([], _) => none
  | (w, r1) =>
    match wsPlus r1 with
    | none => none
    | some r1s =>
      match digits12Comma r1s with
      | none => none
      | some (d, r2) =>
        match wsPlus r2 with
        | none => none
        | some r2s =>
          match digits4 r2s with
          | none => none
          | some y => some (w, d, y)

/-- Leftmost occurrence of the label followed by optional whitespace and the
textual date group. -/
def searchNameDate : List Char → Option (List Char × Nat × Nat)
  | [] => none
  | c :: rest =>
    if ciStartsWith dcLabel (c :: rest) then
      match nameDateAt (((c :: rest).drop dcLabel.length).dropWhile pySpace) with
      | some t => some t
      | none => searchNameDate rest
    else searchNameDate rest

/-- Full month names with their numbers, as `strptime` accepts for the month
directive (matched case-insensitively). -/
def monthNames : List (String × Nat) :=
  [("january", 1), ("february", 2), ("march", 3), ("april", 4), ("may", 5),
   ("june", 6), ("july", 7), ("august", 8), ("september", 9), ("october", 10),
   ("november", 11), ("december", 12)]

/-- Look a letter run up in the month table, case-insensitively. -/
def monthIndex (w : List Char) : Option Nat :=
  List.lookup (⟨w.map Char.toLower⟩ : String) monthNames

/-- `extract_date_posted(text)`: `Except.ok` is the returned string and
`Except.error` is the ValueError that `strptime`/`date` raise on a captured
text whose calendar values are invalid. -/
def extract_date_posted (text : String) : Except String String :=
  match searchSlashDate text.data with
  | some (m, d, y) =>
    if validDate y m d then Except.ok (isoFormat y m d) else Except.error "ValueError"
  | none =>
    match searchNameDate text.data with
    | some (w, d, y) =>
      match monthIndex w with
      | some m =>
        if validDate y m d then Except.ok (isoFormat y m d) else Except.error "ValueError"
      | none => Except.error "ValueError"
    | none => Except.ok ""

/-! ## ARL detail pages (clean_description, parse_arl_detail_page, scrape_arl) -/

/-- Remove every whole-word, case-insensitive occurrence of the word
`p :: ps`; `prev` is the character preceding the current scan position in the
original text (for the word boundary), and scanning resumes after a removed
match as `re.sub` does. -/
def removeWordGo (p : Char) (ps : List Char) : Option Char → List Char → List Char
  | _, [] => []
  | prev, c :: rest =>
    if ciStartsWith (p :: ps) (c :: rest) && boundaryL prev
       && boundaryR ((c :: rest).drop (p :: ps).length) then
      removeWordGo p ps (some (ps.getLastD p)) ((c :: rest).drop (p :: ps).length)
    else c :: removeWordGo p ps (some c) rest
termination_by _ l => l.length
decreasing_by
  all_goals simp [List.length_drop]
  all_goals omega

/-- One `re.sub` pass deleting a junk word. -/
def removeWord (phrase : String) (l : List Char) : List Char :=
  match phrase.data with
  | [] => l
  | p :: ps => removeWordGo p ps none l

/-- The junk phrases stripped by `clean_description`, in source order. -/
def junkPhrases : List String :=
  ["share", "tweet", "email", "print", "facebook", "linkedin"]

/-- `clean_description(text)`: delete the junk words, then collapse whitespace
and strip (the final substitution plus strip equals `clean_text`). -/
def clean_description (text : String) : String :=
  clean_text ⟨junkPhrases.foldl (fun acc ph => removeWord ph acc) text.data⟩

/-- `parse_arl_detail_page(html, url)` applied to the text of the main
container (the `get_text` of the article/main/document node is produced by
BeautifulSoup and passed in as `mainText`). -/
def parse_arl_detail_page (mainText : String) (url : String) : String :=
  pySlice (clean_description (clean_text mainText)) 4000 ++ "\n\nSource: " ++ url

/-- An exception value of the Python process: either an error raised during a
request (transport failure or `raise_for_status`), or the dedicated fetch
failure kind. The `fetchError` constructor is modelled from the spec, which
names a `FetchError` taxonomy element; the source defines no such class. -/
inductive PyError where
  | requestError (msg : String)
  | fetchError (msg : String)
deriving DecidableEq, Repr

/-- A posting stub pulled from a listing page: (title, org, state, detail url). -/
abbrev ArlStub := String × String × String × String

/-- The per-stub body of the `for title, org, state, durl in postings` loop of
`scrape_arl`: try to fetch and parse the detail page, leave the description
empty when the fetch raises (the except branch logs and falls through), then
append a JobRow either way. `fetchD` gives the outcome of `fetch(durl)` and
`mainText` gives the BeautifulSoup text of the main container of the detail page. -/
def arlStubRow (fetchD : String → Except PyError String) (mainText : String → String)
    (stub : ArlStub) : JobRow :=
  let title := stub.1
  let org := stub.2.1
  let state := stub.2.2.1
  let durl := stub.2.2.2
  let desc :=
    match fetchD durl with
    | Except.ok detail_html => parse_arl_detail_page (mainText detail_html) durl
    | Except.error _ => ""
  { title := pySlice title 255
    organization := if org ≠ "" then pySlice org 255 else "Unknown"
    state := state
    sector := "Academic"
    remote_type := infer_remote_type desc
    salary_min := ""
    salary_max := ""
    date_posted := ""
    description := if desc ≠ "" then desc else "Source: " ++ durl
    apply_url := durl }

/-- The whole stub loop of one `scrape_arl` page iteration. -/
def arlProcessStubs (fetchD : String → Except PyError String)
    (mainText : String → String) (stubs : List ArlStub) : List JobRow :=
  stubs.map (arlStubRow fetchD mainText)

/-! ## Fetcher (fetch) -/

/-- The outcome of one `fetch` call: the returned text or the raised error,
together with the `time.sleep` durations performed and the number of request
attempts made. -/
structure FetchResult where
  result : Except PyError String
  sleeps : List Nat
  attempts : Nat
deriving Repr

/-- The `for attempt in range(1, 4)` loop of `fetch`: on success return the
text; on an exception record it as `last_err`, sleep `2 ** attempt` seconds
and continue; after the loop raise `last_err`. `oracle n` is the outcome of
the HTTP request of attempt `n`. -/
def fetchRun (oracle : Nat → Except PyError String) :
    List Nat → Option PyError → List Nat → Nat → FetchResult
  | [], lastErr, sleeps, n =>
    { result := Except.error (lastErr.getD (PyError.requestError "None"))
      sleeps := sleeps, attempts := n }
  | a :: rest, _lastErr, sleeps, n =>
    match oracle a with
    | Except.ok t => { result := Except.ok t, sleeps := sleeps, attempts := n + 1 }
    | Except.error e => fetchRun oracle rest (some e) (sleeps ++ [2 ^ a]) (n + 1)

/-- `fetch(url)`, driven by the per-attempt oracle. -/
def fetch (oracle : Nat → Except PyError String) : FetchResult :=
  fetchRun oracle [1, 2, 3] none [] 0

/-- Is a fetch outcome the dedicated fetch-failure error kind? -/
def isFetchErrorRes : Except PyError String → Bool
  | Except.error (PyError.fetchError _) => true
  | _ => false

/-! ## Concrete inputs used by the closed witness and counterexample theorems -/

/-- Two rows sharing the canonical key (the second differs in case and spacing). -/
def c1RowA : JobRow := { title := "Archivist", organization := "Newberry Library", apply_url := "http://a/1" }

/-- Lower score than `c1RowA` (1 versus 3), same dedup key. -/
def c1RowB : JobRow := { title := "ARCHIVIST ", organization := "newberry   library", state := "IL" }

/-- A row whose canonical organization is the sentinel "unknown". -/
def c2RowX : JobRow := { title := "Archivist", organization := "Unknown", apply_url := "http://a/1" }

/-- A row with a resolved organization. -/
def c2RowY : JobRow := { title := "Archivist", organization := "Newberry Library", apply_url := "http://a/1" }

/-- A fetch oracle whose every attempt raises. -/
def c3FailFetch : String → Except PyError String :=
  fun _ => Except.error (PyError.requestError "timeout")

/-- A trivial main-container text extractor. -/
def c3MainText : String → String := fun h => h

/-- One listing-page stub. -/
def c3Stub : ArlStub := ("Archivist", "Newberry Library", "IL", "http://arl/detail/1")

/-- A feed entry with an empty title attribute. -/
def c5Entry : FeedEntry := { title := "", link := "http://gig/1", summary := "An archives job." }

/-- A feed entry with a non-empty title. -/
def c5EntryW : FeedEntry := { title := "Archivist, Newberry Library", link := "http://gig/2" }

/-- A per-attempt oracle on which every request raises a distinct error. -/
def c6FailOracle : Nat → Except PyError String :=
  fun n => Except.error (PyError.requestError ("err" ++ toString n))

/-- A per-attempt oracle whose first request succeeds. -/
def c7OkOracle : Nat → Except PyError String := fun _ => Except.ok "page"

/-- A sentinel-organization row with an empty apply_url. -/
def c10RowA : JobRow := { title := "Archivist", organization := "Unknown", apply_url := "" }

/-- Another such row with an unrelated title. -/
def c10RowB : JobRow := { title := "Totally Different Role", organization := "", apply_url := "" }

/-- The hyphenated-title example string of claim C9. -/
def wkTitle : String :=
  "Well-Known Title With No Org Suffix - Too Many Words In This Trailing Clause To Be An Organization Name Honestly"

/-- Running best-candidate for one key: the stored dictionary value (if any)
folded with the group of later candidates that share the key. -/
def seedWinner : Option JobRow → List JobRow → Option JobRow
  | some b, g => some (winner b g)
  | none, [] => none
  | none, g0 :: g => some (winner g0 g)

/-! ## Theorems -/

/-- Empty text classifies as unknown remote type. -/
theorem infer_remote_type_empty : infer_remote_type "" = "" := rfl

/-- Canonicalizing the empty string gives the empty string. -/
theorem canonicalize_empty : canonicalize "" = "" := rfl

/-- A non-empty string truncated to a positive length stays non-empty. -/
theorem pySlice_ne_empty (s : String) (n : Nat) (hs : s ≠ "") (hn : 0 < n) :
    pySlice s n ≠ "" := by
  unfold pySlice
  cases hd : s.data with
  | nil =>
    exfalso
    apply hs
    cases s with
    | mk data =>
      have hd' : data = [] := hd
      subst hd'
      rfl
  | cons c cs =>
    cases n with
    | zero => omega
    | succ m =>
      intro hcontra
      have h2 : (c :: cs).take (m + 1) = ("" : String).data := congrArg String.data hcontra
      simp [List.take] at h2

/-- C4: the claim says every Field Inference extraction function is total and
that date parsing returns a normalized date or the empty string, never
raising. The code bug: `extract_date_posted` feeds the regex-captured text to
`datetime.strptime` with no exception handling, so a label followed by a
shape-correct but calendar-invalid date such as 02/30/2026 raises ValueError
(modelled as `Except.error`), while well-formed dates and label-free texts
behave as claimed. -/
theorem extract_date_posted_invalid_date_raises :
    extract_date_posted "Date Created: 02/30/2026" = Except.error "ValueError"
    ∧ extract_date_posted "Date Created: 01/22/2026" = Except.ok "2026-01-22"
    ∧ extract_date_posted "Date Created: January 22, 2026" = Except.ok "2026-01-22"
    ∧ extract_date_posted "no date label here" = Except.ok "" := by
  refine ⟨?_, ?_, ?_, ?_⟩ <;> rfl

/-- C6 counterexample: when every attempt fails, `fetch` raises the last
underlying request error itself; the raised value is not the dedicated
fetch-failure kind, because the source defines no FetchError class and ends
with `raise last_err`. -/
theorem fetch_error_kind_counterexample :
    (fetch c6FailOracle).result = Except.error (PyError.requestError "err3")
    ∧ isFetchErrorRes (fetch c6FailOracle).result = false := by
  constructor <;> rfl

/-- C6 amended: on exhausting its retries, `fetch` re-raises the last
underlying error itself (there is no dedicated FetchError wrapper in the
code). -/
theorem fetch_raises_last_underlying_error (oracle : Nat → Except PyError String)
    (e1 e2 e3 : PyError) (h1 : oracle 1 = Except.error e1)
    (h2 : oracle 2 = Except.error e2) (h3 : oracle 3 = Except.error e3) :
    (fetch oracle).result = Except.error e3 := by
  simp [fetch, fetchRun, h1, h2, h3]

/-- Witness for the amended C6 theorem at a concrete all-failing oracle. -/
theorem fetch_raises_last_underlying_error_witness :
    (fetch c6FailOracle).result = Except.error (PyError.requestError "err3") :=
  fetch_raises_last_underlying_error c6FailOracle
    (PyError.requestError "err1") (PyError.requestError "err2")
    (PyError.requestError "err3") rfl rfl rfl

/-- C7: `fetch` makes at most 3 attempts; its backoff sequence is a prefix of
2s, 4s, 8s (so the delays double and are strictly increasing), the full
sequence runs before the final raise, and a success on the first attempt makes
no backoff call. -/
theorem fetch_retry_backoff (oracle : Nat → Except PyError String) :
    (fetch oracle).attempts ≤ 3
    ∧ (fetch oracle).sleeps = [2, 4, 8].take (fetch oracle).sleeps.length
    ∧ List.Chain' (· < ·) (fetch oracle).sleeps
    ∧ (∀ e, (fetch oracle).result = Except.error e → (fetch oracle).sleeps = [2, 4, 8])
    ∧ (∀ t, oracle 1 = Except.ok t → (fetch oracle).sleeps = [] ∧ (fetch oracle).attempts = 1) := by
  cases h1 : oracle 1 with
  | ok t1 => simp [fetch, fetchRun, h1]
  | error e1 =>
    cases h2 : oracle 2 with
    | ok t2 => simp [fetch, fetchRun, h1, h2]
    | error e2 =>
      cases h3 : oracle 3 with
      | ok t3 => simp [fetch, fetchRun, h1, h2, h3]
      | error e3 => simp [fetch, fetchRun, h1, h2, h3]

/-- Witness for C7: a first-attempt success sleeps never and stops after one
attempt. -/
theorem fetch_retry_backoff_witness :
    (fetch c7OkOracle).sleeps = [] ∧ (fetch c7OkOracle).attempts = 1 :=
  (fetch_retry_backoff c7OkOracle).2.2.2.2 "page" rfl

/-- The leftmost-match scanner returns exactly the first of all token matches. -/
theorem scanTokenAux_eq_head (l : List Char) :
    ∀ prev, scanTokenAux prev l = (allTokensAux prev l).head? := by
  induction l with
  | nil => intro prev; rfl
  | cons a l ih =>
    intro prev
    cases l with
    | nil => rfl
    | cons b rest =>
      by_cases h : (isAZ a && isAZ b && boundaryL prev && boundaryR rest) = true
      · simp [scanTokenAux, allTokensAux, h]
      · simp only [scanTokenAux, allTokensAux, if_neg h]
        exact ih (some a)

/-- C8 counterexample: the text "XY CA" contains the member token CA as a bare
two-letter uppercase token, yet `extract_state` returns the empty string,
because the regex search stops at the first such token, XY, and only then
tests set membership. -/
theorem extract_state_counterexample :
    extract_state "XY CA" = ""
    ∧ "CA" ∈ allTokens "XY CA"
    ∧ "CA" ∈ STATE_ABBRL := by
  refine ⟨rfl, ?_, ?_⟩ <;> decide

/-- C8 amended: `extract_state` looks only at the first bare two-letter
uppercase token of the text, returning it when it is in the state set and the
empty string otherwise (so a member token after a non-member token is not
found); a non-empty result is always in the 51-entry set. -/
theorem extract_state_first_token (t : String) :
    extract_state t = (match (allTokens t).head? with
      | some tok => if tok ∈ STATE_ABBRL then tok else ""
      | none => "")
    ∧ (extract_state t ≠ "" → extract_state t ∈ STATE_ABBRL) := by
  have h := scanTokenAux_eq_head t.data none
  constructor
  · simp only [extract_state, allTokens, h]
  · intro hne
    unfold extract_state at hne ⊢
    cases hs : scanTokenAux none t.data with
    | none => rw [hs] at hne; exact absurd rfl hne
    | some tok =>
      rw [hs] at hne
      have hne' : (if tok ∈ STATE_ABBRL then tok else "") ≠ "" := hne
      show (if tok ∈ STATE_ABBRL then tok else "") ∈ STATE_ABBRL
      by_cases hm : tok ∈ STATE_ABBRL
      · rw [if_pos hm]; exact hm
      · rw [if_neg hm] at hne'; exact absurd rfl hne'

/-- Witness for the amended C8 theorem: a non-empty extraction lands in the set. -/
theorem extract_state_first_token_witness :
    extract_state "Oakland CA" ∈ STATE_ABBRL :=
  (extract_state_first_token "Oakland CA").2 (by decide)

/-- Each separator round of `split_title_org` either falls through to the
final `(t, "")` or returns an accepted split: both sides non-empty and the
right side at most 80 characters. -/
theorem trySeps_cases (seps : List String) (t : String) :
    trySeps t seps = (t, "")
    ∨ ((trySeps t seps).1 ≠ "" ∧ (trySeps t seps).2 ≠ ""
        ∧ ((trySeps t seps).2).length ≤ 80) := by
  induction seps with
  | nil => left; rfl
  | cons sep seps ih =>
    cases hsp : splitFirstAux sep.data t.data with
    | none => simpa [trySeps, hsp] using ih
    | some pr =>
      obtain ⟨pre, post⟩ := pr
      by_cases hc : clean_text ⟨pre⟩ ≠ "" ∧ clean_text ⟨post⟩ ≠ ""
          ∧ (clean_text ⟨post⟩).length ≤ 80
      · right
        simp only [trySeps, hsp, if_pos hc]
        exact hc
      · simpa [trySeps, hsp, if_neg hc] using ih

/-- C9 counterexample: the trailing clause of the hyphenated example is 74
characters, no longer than 80, so `split_title_org` accepts the split instead
of returning the original string with an empty organization as the claim
states. -/
theorem split_title_org_counterexample :
    split_title_org wkTitle =
      ("Well-Known Title With No Org Suffix",
       "Too Many Words In This Trailing Clause To Be An Organization Name Honestly")
    ∧ split_title_org wkTitle ≠ (wkTitle, "")
    ∧ ("Too Many Words In This Trailing Clause To Be An Organization Name Honestly" : String).length = 74 := by
  refine ⟨by rfl, by decide, by rfl⟩

/-- C9 amended: the separators are tried in order and a split is accepted only
when both sides are non-empty and the organization side is at most 80
characters, otherwise the cleaned full string is returned with an empty
organization; "Head Librarian - State University" splits as claimed, while the
second example string has a 74-character trailing clause and therefore splits
into (title, trailing clause) rather than falling through. -/
theorem split_title_org_rule :
    split_title_org "Head Librarian - State University" = ("Head Librarian", "State University")
    ∧ split_title_org wkTitle =
        ("Well-Known Title With No Org Suffix",
         "Too Many Words In This Trailing Clause To Be An Organization Name Honestly")
    ∧ ∀ raw : String,
        ((split_title_org raw).2 ≠ "" →
          (split_title_org raw).1 ≠ "" ∧ ((split_title_org raw).2).length ≤ 80)
        ∧ ((split_title_org raw).2 = "" → (split_title_org raw).1 = clean_text raw) := by
  refine ⟨by rfl, by rfl, ?_⟩
  intro raw
  have h := trySeps_cases [" — ", " - ", " – "] (clean_text raw)
  simp only [split_title_org]
  constructor
  · intro h2
    rcases h with h | ⟨ha, hb, hc⟩
    · rw [h] at h2
      exact absurd rfl h2
    · exact ⟨ha, hc⟩
  · intro h2
    rcases h with h | ⟨ha, hb, hc⟩
    · rw [h]
    · exact absurd h2 hb

/-- Witness for the amended C9 theorem at a short concrete split. -/
theorem split_title_org_rule_witness :
    (split_title_org "A - B").1 ≠ "" ∧ ((split_title_org "A - B").2).length ≤ 80 :=
  (split_title_org_rule.2.2 "A - B").1 (by decide)

/-- C2: the dedup key is (canonical title, canonical organization) when the
canonical organization is resolved (non-empty and not a sentinel) and the
canonical apply_url otherwise; consequently a posting with an unresolved
organization shares a key with another posting exactly when that posting is
also unresolved and their canonical apply_urls coincide, never through title
and organization alone. -/
theorem dedupKey_shape_and_merge (x y : JobRow) :
    (orgKeyUnresolved (canonicalize x.organization) = true →
      dedupKey x = DedupKey.url (canonicalize x.apply_url))
    ∧ (orgKeyUnresolved (canonicalize x.organization) = false →
      dedupKey x = DedupKey.job (canonicalize x.title) (canonicalize x.organization))
    ∧ (orgKeyUnresolved (canonicalize x.organization) = true →
      (dedupKey x = dedupKey y ↔
        orgKeyUnresolved (canonicalize y.organization) = true
        ∧ canonicalize x.apply_url = canonicalize y.apply_url)) := by
  refine ⟨fun h => by simp [dedupKey, h], fun h => by simp [dedupKey, h], fun h => ?_⟩
  cases hy : orgKeyUnresolved (canonicalize y.organization) with
  | true => simp [dedupKey, h, hy]
  | false => simp [dedupKey, h, hy]

/-- Witness for C2 at concrete rows: the sentinel-organization row merges with
the resolved row if and only if the resolved row is also unresolved (it is
not) with an equal canonical url. -/
theorem dedupKey_shape_and_merge_witness :
    dedupKey c2RowX = dedupKey c2RowY ↔
      orgKeyUnresolved (canonicalize c2RowY.organization) = true
      ∧ canonicalize c2RowX.apply_url = canonicalize c2RowY.apply_url :=
  (dedupKey_shape_and_merge c2RowX c2RowY).2.2 (by decide)

/-- C3 counterexample: a stub whose detail fetch always fails still yields a
posting in the adapter output (with the fallback description), so the stub is
not dropped as the claim states. -/
theorem arl_detail_failure_counterexample :
    arlProcessStubs c3FailFetch c3MainText [c3Stub] =
      [{ title := "Archivist", organization := "Newberry Library", state := "IL",
         sector := "Academic", remote_type := "", salary_min := "", salary_max := "",
         date_posted := "", description := "Source: http://arl/detail/1",
         apply_url := "http://arl/detail/1" }] := by
  rfl

/-- C3 amended: for every stub whose detail-page fetch fails, the failure is
caught (logged) and a Posting for that stub is still appended, with an empty
extracted description replaced by the "Source: url" fallback and an empty
remote type; the loop continues, producing one posting per stub. -/
theorem arl_detail_failure_keeps_stub (fetchD : String → Except PyError String)
    (mainText : String → String) (stubs : List ArlStub)
    (t o s u : String) (e : PyError)
    (hmem : (t, o, s, u) ∈ stubs) (hfail : fetchD u = Except.error e) :
    (arlProcessStubs fetchD mainText stubs).length = stubs.length
    ∧ ∃ row ∈ arlProcessStubs fetchD mainText stubs,
        row.apply_url = u ∧ row.description = "Source: " ++ u ∧ row.remote_type = "" := by
  constructor
  · simp [arlProcessStubs]
  · refine ⟨arlStubRow fetchD mainText (t, o, s, u),
      List.mem_map_of_mem _ hmem, ?_, ?_, ?_⟩
    all_goals simp [arlStubRow, hfail, infer_remote_type_empty]

/-- Witness for the amended C3 theorem at the concrete failing stub. -/
theorem arl_detail_failure_keeps_stub_witness :
    (arlProcessStubs c3FailFetch c3MainText [c3Stub]).length = [c3Stub].length
    ∧ ∃ row ∈ arlProcessStubs c3FailFetch c3MainText [c3Stub],
        row.apply_url = "http://arl/detail/1"
        ∧ row.description = "Source: " ++ "http://arl/detail/1"
        ∧ row.remote_type = "" :=
  arl_detail_failure_keeps_stub c3FailFetch c3MainText [c3Stub]
    "Archivist" "Newberry Library" "IL" "http://arl/detail/1"
    (PyError.requestError "timeout") (by decide) rfl

/-- The title field of an ArchivesGig row, as the source computes it. -/
theorem archivesgigRow_title (entry : FeedEntry) :
    (archivesgigRow entry).title =
      if (parse_archivesgig_title entry.title).1 ≠ "" then
        pySlice (parse_archivesgig_title entry.title).1 255
      else pySlice (clean_text entry.title) 255 := by
  simp only [archivesgigRow]

/-- The title field of a HigherEdJobs row, as the source computes it. -/
theorem higheredjobsRow_title (entry : FeedEntry) :
    (higheredjobsRow entry).title =
      if (split_title_org entry.title).1 ≠ "" then
        pySlice (split_title_org entry.title).1 255
      else pySlice (clean_text entry.title) 255 := by
  simp only [higheredjobsRow]

/-- C5 counterexample: a feed entry with an empty title attribute produces a
posting whose title is empty; no "Untitled" placeholder exists anywhere in the
construction. -/
theorem feed_empty_title_counterexample :
    scrape_archivesgig [c5Entry] 80 =
      [{ title := "", organization := "Unknown", state := "", sector := "Other",
         remote_type := "", salary_min := "", salary_max := "", date_posted := "",
         description := "An archives job.\n\nSource: http://gig/1",
         apply_url := "http://gig/1" }] := by
  rfl

/-- C5 amended: the feed adapters fall back to the cleaned raw feed title
(truncated to 255) when the derived title is empty, so their postings have a
non-empty title whenever the raw feed title cleans to a non-empty string;
there is no "Untitled" placeholder, and an entry whose title cleans to empty
yields an empty posting title. -/
theorem feed_title_fallback (entry : FeedEntry) (h : clean_text entry.title ≠ "") :
    (archivesgigRow entry).title ≠ "" ∧ (higheredjobsRow entry).title ≠ "" := by
  constructor
  · rw [archivesgigRow_title]
    by_cases ht : (parse_archivesgig_title entry.title).1 ≠ ""
    · rw [if_pos ht]
      exact pySlice_ne_empty _ _ ht (by norm_num)
    · rw [if_neg ht]
      exact pySlice_ne_empty _ _ h (by norm_num)
  · rw [higheredjobsRow_title]
    by_cases ht : (split_title_org entry.title).1 ≠ ""
    · rw [if_pos ht]
      exact pySlice_ne_empty _ _ ht (by norm_num)
    · rw [if_neg ht]
      exact pySlice_ne_empty _ _ h (by norm_num)

/-- Witness for the amended C5 theorem at a concrete entry. -/
theorem feed_title_fallback_witness :
    (archivesgigRow c5EntryW).title ≠ "" ∧ (higheredjobsRow c5EntryW).title ≠ "" :=
  feed_title_fallback c5EntryW (by decide)

/-- The stored candidate never loses score in a comparison. -/
theorem score_pickBetter_left (b x : JobRow) : score b ≤ score (pickBetter b x) := by
  unfold pickBetter
  split
  · omega
  · exact le_refl _

/-- The group fold never decreases the score of the running best. -/
theorem score_winner_ge (g : List JobRow) : ∀ b, score b ≤ score (winner b g) := by
  induction g with
  | nil => intro b; exact le_refl _
  | cons x g ih =>
    intro b
    calc score b ≤ score (pickBetter b x) := score_pickBetter_left b x
      _ ≤ score (winner (pickBetter b x) g) := ih (pickBetter b x)

/-- The fold keeps the first candidate attaining the maximal score: candidates
strictly before the result score strictly less, candidates after it score no
more. -/
theorem winner_decomp (g : List JobRow) : ∀ b : JobRow,
    ∃ l₁ l₂, b :: g = l₁ ++ winner b g :: l₂
      ∧ (∀ x ∈ l₁, score x < score (winner b g))
      ∧ (∀ x ∈ l₂, score x ≤ score (winner b g)) := by
  induction g with
  | nil =>
    intro b
    exact ⟨[], [], rfl, by simp, by simp⟩
  | cons x g ih =>
    intro b
    have hw : winner b (x :: g) = winner (pickBetter b x) g := rfl
    by_cases hx : score x > score b
    · have hbx : pickBetter b x = x := if_pos hx
      have hwx : winner b (x :: g) = winner x g := by rw [hw, hbx]
      rw [hwx]
      obtain ⟨l₁, l₂, heq, h₁, h₂⟩ := ih (pickBetter b x)
      rw [hbx] at heq h₁ h₂
      refine ⟨b :: l₁, l₂, ?_, ?_, h₂⟩
      · simpa using heq
      · intro y hy
        rcases List.mem_cons.mp hy with hyb | hyl
        · subst hyb
          calc score y < score x := hx
            _ ≤ score (winner x g) := score_winner_ge g x
        · exact h₁ y hyl
    · have hbx : pickBetter b x = b := if_neg hx
      obtain ⟨l₁, l₂, heq, h₁, h₂⟩ := ih (pickBetter b x)
      rw [hbx] at heq h₁ h₂
      rw [hw, hbx]
      cases l₁ with
      | nil =>
        have hb : b = winner b g ∧ g = l₂ := by
          have := heq
          simp only [List.nil_append] at this
          exact ⟨List.head_eq_of_cons_eq this, List.tail_eq_of_cons_eq this⟩
        refine ⟨[], x :: g, ?_, by simp, ?_⟩
        · simp [← hb.1]
        · intro y hy
          rcases List.mem_cons.mp hy with hyx | hyg
          · subst hyx
            rw [← hb.1]
            omega
          · rw [hb.2] at hyg
            exact h₂ y hyg
      | cons a l₁ =>
        have hba : b = a ∧ g = l₁ ++ winner b g :: l₂ := by
          have := heq
          simp only [List.cons_append] at this
          exact ⟨List.head_eq_of_cons_eq this, List.tail_eq_of_cons_eq this⟩
        have hbw : score b < score (winner b g) := by
          apply h₁
          rw [hba.1]
          exact List.mem_cons_self a l₁
        refine ⟨b :: x :: l₁, l₂, ?_, ?_, h₂⟩
        · simp only [List.cons_append]
          rw [← hba.2]
        · intro y hy
          rcases List.mem_cons.mp hy with hyb | hy
          · subst hyb; exact hbw
          rcases List.mem_cons.mp hy with hyx | hyl
          · subst hyx; omega
          · exact h₁ y (List.mem_cons_of_mem a hyl)

/-- Lookup after appending a single fresh pair at the end. -/
theorem lookupAssoc_append_single (u : List (DedupKey × JobRow)) (k0 k : DedupKey) (r : JobRow) :
    lookupAssoc (u ++ [(k0, r)]) k =
      match lookupAssoc u k with
      | some b => some b
      | none => if k0 = k then some r else none := by
  induction u with
  | nil => simp [lookupAssoc]
  | cons p u ih =>
    obtain ⟨k', r'⟩ := p
    by_cases h : k' = k
    · simp [lookupAssoc, h]
    · simp only [List.cons_append, lookupAssoc, if_neg h]
      exact ih

/-- Lookup after a dictionary assignment. -/
theorem lookupAssoc_update (u : List (DedupKey × JobRow)) (k0 k : DedupKey) (r : JobRow) :
    lookupAssoc (updateAssoc u k0 r) k =
      if k0 = k then some r else lookupAssoc u k := by
  induction u with
  | nil => simp [updateAssoc, lookupAssoc]
  | cons p u ih =>
    obtain ⟨k', r'⟩ := p
    by_cases h0 : k' = k0
    · subst h0
      by_cases h : k' = k
      · simp [updateAssoc, lookupAssoc, h]
      · simp [updateAssoc, lookupAssoc, h]
    · by_cases h : k' = k
      · subst h
        have : ¬ k0 = k' := fun hc => h0 hc.symm
        simp [updateAssoc, lookupAssoc, h0, this]
      · simp only [updateAssoc, if_neg h0, lookupAssoc, if_neg h]
        exact ih

/-- A dedup step leaves the entries of other keys alone. -/
theorem lookup_dedupeStep_ne (u : List (DedupKey × JobRow)) (r : JobRow) (k : DedupKey)
    (h : dedupKey r ≠ k) :
    lookupAssoc (dedupeStep u r) k = lookupAssoc u k := by
  cases hl : lookupAssoc u (dedupKey r) with
  | none =>
    simp only [dedupeStep, hl]
    rw [lookupAssoc_append_single]
    cases lookupAssoc u k with
    | none => simp [if_neg h]
    | some b => rfl
  | some b =>
    simp only [dedupeStep, hl]
    by_cases hs : score r > score b
    · rw [if_pos hs, lookupAssoc_update, if_neg h]
    · rw [if_neg hs]

/-- A dedup step stores, under the row's own key, the pick between the stored
candidate and the new row (or the new row when the key is fresh). -/
theorem lookup_dedupeStep_eq (u : List (DedupKey × JobRow)) (r : JobRow) :
    lookupAssoc (dedupeStep u r) (dedupKey r) =
      some (match lookupAssoc u (dedupKey r) with
            | none => r
            | some b => pickBetter b r) := by
  cases hl : lookupAssoc u (dedupKey r) with
  | none =>
    simp only [dedupeStep, hl]
    rw [lookupAssoc_append_single, hl]
    simp
  | some b =>
    simp only [dedupeStep, hl]
    by_cases hs : score r > score b
    · rw [if_pos hs, lookupAssoc_update, if_pos rfl]
      unfold pickBetter
      rw [if_pos hs]
    · rw [if_neg hs, hl]
      unfold pickBetter
      rw [if_neg hs]

/-- The dictionary entry of key `k` after folding a row list is the winner of
the seed entry and the subsequence of rows mapped to `k`. -/
theorem lookup_foldl_dedupe (rows : List JobRow) :
    ∀ (u : List (DedupKey × JobRow)) (k : DedupKey),
    lookupAssoc (rows.foldl dedupeStep u) k
      = seedWinner (lookupAssoc u k) (rows.filter (keyFilter k)) := by
  induction rows with
  | nil =>
    intro u k
    simp only [List.foldl_nil, List.filter_nil]
    cases hu : lookupAssoc u k with
    | none => rfl
    | some b => rfl
  | cons r rows ih =>
    intro u k
    rw [List.foldl_cons, ih]
    by_cases hk : dedupKey r = k
    · subst hk
      rw [lookup_dedupeStep_eq]
      have hf : (r :: rows).filter (keyFilter (dedupKey r))
          = r :: rows.filter (keyFilter (dedupKey r)) := by
        simp [List.filter_cons, keyFilter]
      rw [hf]
      cases lookupAssoc u (dedupKey r) with
      | none => rfl
      | some b => rfl
    · rw [lookup_dedupeStep_ne u r k hk]
      have hf : (r :: rows).filter (keyFilter k) = rows.filter (keyFilter k) := by
        simp [List.filter_cons, keyFilter, hk]
      rw [hf]

/-- A pair in an updated dictionary comes from the old dictionary or is the
assigned pair. -/
theorem mem_updateAssoc (u : List (DedupKey × JobRow)) (k0 : DedupKey) (r : JobRow)
    (p : DedupKey × JobRow) (hp : p ∈ updateAssoc u k0 r) : p ∈ u ∨ p = (k0, r) := by
  induction u with
  | nil =>
    simp [updateAssoc] at hp
    right
    exact hp
  | cons q u ih =>
    obtain ⟨k', r'⟩ := q
    by_cases h : k' = k0
    · subst h
      rw [updateAssoc, if_pos rfl] at hp
      rcases List.mem_cons.mp hp with hq | hq
      · right
        rw [hq]
      · left
        exact List.mem_cons_of_mem _ hq
    · rw [updateAssoc, if_neg h] at hp
      rcases List.mem_cons.mp hp with hq | hq
      · left
        rw [hq]
        exact List.mem_cons_self _ _
      · rcases ih hq with hq' | hq'
        · left
          exact List.mem_cons_of_mem _ hq'
        · right
          exact hq'

/-- Every pair stored by the fold keeps the invariant that its key is the
dedup key of its row. -/
theorem dedupe_key_consistent (rows : List JobRow) :
    ∀ u, (∀ p ∈ u, dedupKey p.2 = p.1) →
    ∀ p ∈ rows.foldl dedupeStep u, dedupKey p.2 = p.1 := by
  induction rows with
  | nil => intro u hu; exact hu
  | cons r rows ih =>
    intro u hu
    rw [List.foldl_cons]
    apply ih
    intro p hp
    cases hl : lookupAssoc u (dedupKey r) with
    | none =>
      simp only [dedupeStep, hl] at hp
      rcases List.mem_append.mp hp with h | h
      · exact hu p h
      · simp at h
        rw [h]
    | some b =>
      simp only [dedupeStep, hl] at hp
      by_cases hs : score r > score b
      · rw [if_pos hs] at hp
        rcases mem_updateAssoc u (dedupKey r) r p hp with h | h
        · exact hu p h
        · rw [h]
      · rw [if_neg hs] at hp
        exact hu p hp

/-- An absent key looks up to nothing. -/
theorem lookupAssoc_eq_none_of_not_mem (u : List (DedupKey × JobRow)) (k : DedupKey)
    (h : k ∉ u.map Prod.fst) : lookupAssoc u k = none := by
  induction u with
  | nil => rfl
  | cons p u ih =>
    obtain ⟨k', r'⟩ := p
    simp only [List.map_cons, List.mem_cons] at h
    push_neg at h
    rw [lookupAssoc, if_neg (fun hc => h.1 hc.symm)]
    exact ih h.2

/-- A key that looks up to nothing is absent. -/
theorem not_mem_of_lookupAssoc_eq_none (u : List (DedupKey × JobRow)) (k : DedupKey)
    (h : lookupAssoc u k = none) : k ∉ u.map Prod.fst := by
  induction u with
  | nil => simp
  | cons p u ih =>
    obtain ⟨k', r'⟩ := p
    by_cases hk : k' = k
    · rw [lookupAssoc, if_pos hk] at h
      exact absurd h (by simp)
    · rw [lookupAssoc, if_neg hk] at h
      simp only [List.map_cons, List.mem_cons]
      push_neg
      exact ⟨fun hc => hk hc.symm, ih h⟩

/-- Updating a present key does not change the key sequence. -/
theorem fst_updateAssoc (u : List (DedupKey × JobRow)) (k0 : DedupKey) (r b : JobRow)
    (h : lookupAssoc u k0 = some b) :
    (updateAssoc u k0 r).map Prod.fst = u.map Prod.fst := by
  induction u with
  | nil => simp [lookupAssoc] at h
  | cons p u ih =>
    obtain ⟨k', r'⟩ := p
    by_cases hk : k' = k0
    · subst hk
      rw [updateAssoc, if_pos rfl]
      simp
    · rw [lookupAssoc, if_neg hk] at h
      rw [updateAssoc, if_neg hk]
      simp only [List.map_cons]
      rw [ih h]

/-- The fold keeps the dictionary keys pairwise distinct. -/
theorem dedupe_keys_nodup (rows : List JobRow) :
    ∀ u, (u.map Prod.fst).Nodup → ((rows.foldl dedupeStep u).map Prod.fst).Nodup := by
  induction rows with
  | nil => intro u hu; exact hu
  | cons r rows ih =>
    intro u hu
    rw [List.foldl_cons]
    apply ih
    cases hl : lookupAssoc u (dedupKey r) with
    | none =>
      simp only [dedupeStep, hl]
      rw [List.map_append]
      rw [List.nodup_append]
      refine ⟨hu, by simp, ?_⟩
      intro a ha hb
      simp at hb
      subst hb
      exact not_mem_of_lookupAssoc_eq_none u (dedupKey r) hl ha
    | some b =>
      simp only [dedupeStep, hl]
      by_cases hs : score r > score b
      · rw [if_pos hs, fst_updateAssoc u (dedupKey r) r b hl]
        exact hu
      · rw [if_neg hs]
        exact hu

/-- Reading the values of a dictionary with distinct, consistent keys and
filtering them by one key yields exactly the entry of that key. -/
theorem filter_values (u : List (DedupKey × JobRow)) (k : DedupKey)
    (hn : (u.map Prod.fst).Nodup) (hc : ∀ p ∈ u, dedupKey p.2 = p.1) :
    (u.map Prod.snd).filter (keyFilter k) =
      match lookupAssoc u k with
      | none => []
      | some r => [r] := by
  induction u with
  | nil => rfl
  | cons p u ih =>
    obtain ⟨k', r'⟩ := p
    have hk' : dedupKey r' = k' := hc (k', r') (List.mem_cons_self _ _)
    have hn' : (u.map Prod.fst).Nodup := (List.nodup_cons.mp (by simpa using hn)).2
    have hnotin : k' ∉ u.map Prod.fst := (List.nodup_cons.mp (by simpa using hn)).1
    have hc' : ∀ p ∈ u, dedupKey p.2 = p.1 := fun p hp => hc p (List.mem_cons_of_mem _ hp)
    by_cases h : k' = k
    · subst h
      have hnone : lookupAssoc u k' = none := lookupAssoc_eq_none_of_not_mem u k' hnotin
      have hrest : (u.map Prod.snd).filter (keyFilter k') = [] := by
        rw [ih hn' hc', hnone]
      simp only [List.map_cons, List.filter_cons, keyFilter, hk', decide_True,
        lookupAssoc, if_pos rfl]
      rw [hrest]
      simp
    · have hfk : keyFilter k r' = false := by
        simp [keyFilter, hk', h]
      simp only [List.map_cons, List.filter_cons, hfk, lookupAssoc, if_neg h]
      exact ih hn' hc'

/-- Filtering by a stronger predicate never yields more elements. -/
theorem length_filter_le_filter {α : Type} (p q : α → Bool) (l : List α)
    (h : ∀ a, p a = true → q a = true) :
    (l.filter p).length ≤ (l.filter q).length := by
  induction l with
  | nil => simp
  | cons a l ih =>
    rw [List.filter_cons, List.filter_cons]
    by_cases hp : p a = true
    · rw [if_pos hp, if_pos (h a hp)]
      simpa using ih
    · rw [if_neg hp]
      by_cases hq : q a = true
      · rw [if_pos hq]
        exact le_trans ih (by simp)
      · rw [if_neg hq]
        exact ih

/-- C1: for every input list and every dedup key occurring in it,
`dedupe_rows` keeps exactly one posting with that key, and the kept posting is
the first of the key's candidates (in input order) attaining the maximal
completeness score; in particular ties keep the first-seen candidate. -/
theorem dedupe_rows_unique_best (rows : List JobRow) (k : DedupKey)
    (hk : ∃ r, r ∈ rows ∧ dedupKey r = k) :
    ∃ r, (dedupe_rows rows).filter (keyFilter k) = [r]
      ∧ isFirstArgmax r (rows.filter (keyFilter k)) := by
  obtain ⟨r0, hr0, hkey⟩ := hk
  have hmem : r0 ∈ rows.filter (keyFilter k) :=
    List.mem_filter.mpr ⟨hr0, by simp [keyFilter, hkey]⟩
  cases hf : rows.filter (keyFilter k) with
  | nil => rw [hf] at hmem; cases hmem
  | cons g0 g =>
    have hlook : lookupAssoc (rows.foldl dedupeStep []) k = some (winner g0 g) := by
      rw [lookup_foldl_dedupe rows [] k, hf]
      rfl
    have hval := filter_values (rows.foldl dedupeStep []) k
      (dedupe_keys_nodup rows [] (by simp))
      (dedupe_key_consistent rows [] (by simp))
    rw [hlook] at hval
    refine ⟨winner g0 g, hval, ?_⟩
    obtain ⟨l₁, l₂, heq, h₁, h₂⟩ := winner_decomp g g0
    exact ⟨l₁, l₂, heq, h₁, h₂⟩

/-- Witness for C1 at a concrete pair of rows sharing one key: the first row
(score 3) beats the second (score 1). -/
theorem dedupe_rows_unique_best_witness :
    ∃ r, (dedupe_rows [c1RowA, c1RowB]).filter
        (keyFilter (DedupKey.job "archivist" "newberry library")) = [r]
      ∧ isFirstArgmax r ([c1RowA, c1RowB].filter
          (keyFilter (DedupKey.job "archivist" "newberry library"))) :=
  dedupe_rows_unique_best [c1RowA, c1RowB]
    (DedupKey.job "archivist" "newberry library")
    ⟨c1RowA, by decide⟩

/-- Any sentinel-organization row with an empty apply_url has the key
("url", ""). -/
theorem sentinelNoUrl_key (r : JobRow) (hr : sentinelNoUrl r = true) :
    dedupKey r = DedupKey.url "" := by
  have h1 : orgKeyUnresolved (canonicalize r.organization) = true :=
    (Bool.and_eq_true_iff.mp hr).1
  have h2 : r.apply_url = "" := by
    have := (Bool.and_eq_true_iff.mp hr).2
    exact eq_of_beq this
  rw [dedupKey, if_pos h1, h2, canonicalize_empty]

/-- C10: every posting whose canonical organization is empty or a sentinel and
whose apply_url is empty gets the single key ("url", ""), so the dedup output
keeps at most one such posting however unrelated their titles are. -/
theorem dedupe_rows_sentinel_collapse (rows : List JobRow) (r : JobRow)
    (hr : sentinelNoUrl r = true) :
    dedupKey r = DedupKey.url ""
    ∧ ((dedupe_rows rows).filter sentinelNoUrl).length ≤ 1 := by
  refine ⟨sentinelNoUrl_key r hr, ?_⟩
  have hmono : ∀ x, sentinelNoUrl x = true → keyFilter (DedupKey.url "") x = true := by
    intro x hx
    simp [keyFilter, sentinelNoUrl_key x hx]
  calc ((dedupe_rows rows).filter sentinelNoUrl).length
      ≤ ((dedupe_rows rows).filter (keyFilter (DedupKey.url ""))).length :=
        length_filter_le_filter _ _ _ hmono
    _ ≤ 1 := by
        have hval := filter_values (rows.foldl dedupeStep []) (DedupKey.url "")
          (dedupe_keys_nodup rows [] (by simp))
          (dedupe_key_consistent rows [] (by simp))
        show ((dedupe_rows rows).filter (keyFilter (DedupKey.url ""))).length ≤ 1
        unfold dedupe_rows
        rw [hval]
        cases lookupAssoc (rows.foldl dedupeStep []) (DedupKey.url "") with
        | none => simp
        | some b => simp

/-- Witness for C10 at two concrete sentinel rows with unrelated titles. -/
theorem dedupe_rows_sentinel_collapse_witness :
    dedupKey c10RowA = DedupKey.url ""
    ∧ ((dedupe_rows [c10RowA, c10RowB]).filter sentinelNoUrl).length ≤ 1 :=
  dedupe_rows_sentinel_collapse [c10RowA, c10RowB] c10RowA (by decide)
